import Mathlib

/-!
Verification development for the ESPHome updater add-ons
(`esphome_smart_updater/esphome_smart_updater.py` and
`esphome_selective_updates/esphome_smart_updater.py`).

Strings are embedded as `List Char`; device outcomes delivered by external
tools (ping, the compiler, the uploader) are supplied per device through an
environment record, and the orchestrator's main loop is embedded as a
recursive function threading the persisted progress state.
-/

namespace EsphomeUpdater

abbrev Str := List Char

/-- Worker for `dedupKeepFirst`: drops every element already in `seen`,
keeping the first occurrence of each new element. -/
def dedupSeen {α : Type} [DecidableEq α] (seen : List α) : List α → List α
  | [] => []
  | a :: t => if a ∈ seen then dedupSeen seen t else a :: dedupSeen (a :: seen) t

/-- Models Python `list(dict.fromkeys(v))`: removes duplicates from a list
keeping the first occurrence of each element, preserving order. -/
def dedupKeepFirst {α : Type} [DecidableEq α] (l : List α) : List α :=
  dedupSeen [] l

/-- The persisted progress state: the three terminal progress sets,
mirroring the JSON document `{"done": [...], "failed": [...], "skipped": [...]}`. -/
structure Progress where
  done : List Str
  failed : List Str
  skipped : List Str
deriving DecidableEq

/-- Models `save_progress` of `esphome_smart_updater.py` (lines 96-101): each
of the three sets is deduplicated with `list(dict.fromkeys(v))` (first
occurrence kept) and the resulting state is both written to disk and left in
memory (the function mutates the passed dict). -/
def save_progress (p : Progress) : Progress :=
  { done := dedupKeepFirst p.done
    failed := dedupKeepFirst p.failed
    skipped := dedupKeepFirst p.skipped }

/-- Models `save_progress` of `esphome_selective_updates/esphome_smart_updater.py`
(lines 177-184): the progress dict is written with `json.dump` exactly as
given, without any deduplication. -/
def save_progress_selective (p : Progress) : Progress := p

/-- Models the Python substring test `needle in hay`. -/
def containsSub (needle : Str) : Str → Bool
  | [] => needle.isEmpty
  | c :: t => needle.isPrefixOf (c :: t) || containsSub needle t

/-- Models `_score_candidate` (esphome_smart_updater.py lines 269-273): an
exact-prefix match (`name.startswith(stem + "-")`) scores 3, an exact-name
match scores 2, a substring match scores 1, anything else 0. -/
def score_candidate (stem name : Str) : Nat :=
  if (stem ++ ['-']).isPrefixOf name then 3
  else if name = stem then 2
  else if containsSub stem name then 1
  else 0

/-- One insertion step of the stable descending sort below: a new candidate is
placed before the first already-sorted candidate whose score is not larger, so
among equal scores the earlier list element comes first. -/
def insertByScoreDesc (stem c : Str) : List Str → List Str
  | [] => [c]
  | d :: ds =>
    if score_candidate stem d ≤ score_candidate stem c then c :: d :: ds
    else d :: insertByScoreDesc stem c ds

/-- Models `candidates.sort(key=lambda p: _score_candidate(...), reverse=True)`
(esphome_smart_updater.py line 279): a stable sort by descending score. -/
def sortByScoreDesc (stem : Str) : List Str → List Str
  | [] => []
  | c :: cs => insertByScoreDesc stem c (sortByScoreDesc stem cs)

/-- Models the candidate selection of `_find_firmware_and_esphome_name`
(lines 275-282): the best candidate is `candidates[0]` after the stable
descending sort by score. -/
def select_candidate (stem : Str) (cands : List Str) : Option Str :=
  (sortByScoreDesc stem cands).head?

/-- Models `_is_ip` restricted to IPv4 dotted-quad octets: nonempty, all
decimal digits, at most 3 of them, value at most 255 and no leading zero,
exactly as `ipaddress.ip_address` accepts them. -/
def validOctet (s : Str) : Bool :=
  !s.isEmpty && s.all Char.isDigit && s.length ≤ 3
    && s.foldl (fun n c => n * 10 + (c.toNat - '0'.toNat)) 0 ≤ 255
    && (s.length = 1 || s.head? ≠ some '0')

def isIPv4 (s : Str) : Bool :=
  let parts := s.splitOn '.'
  parts.length = 4 && parts.all validOctet

def validHexGroup (s : Str) : Bool :=
  !s.isEmpty && s.length ≤ 4
    && s.all (fun c => c.isDigit
        || ('a'.toNat ≤ c.toNat && c.toNat ≤ 'f'.toNat)
        || ('A'.toNat ≤ c.toNat && c.toNat ≤ 'F'.toNat))

/-- Models the IPv6 branch of `ipaddress.ip_address`: colon-separated hex
groups of at most 4 digits, 8 groups in full form, or fewer with one `::`
compression (which yields empty groups when splitting on the colon). Exotic
forms (zone ids, IPv4-embedded notation) are not modelled; no claim depends
on them. -/
def isIPv6 (s : Str) : Bool :=
  let parts := s.splitOn ':'
  let empties := (parts.filter List.isEmpty).length
  2 ≤ parts.length && parts.length ≤ 9
    && parts.all (fun g => g.isEmpty || validHexGroup g)
    && (if empties = 0 then parts.length = 8 else empties ≤ 3)

/-- Models `_is_ip` (esphome_smart_updater.py lines 146-151): true exactly
when `ipaddress.ip_address` accepts the string as an IPv4 or IPv6 literal. -/
def is_ip (s : Str) : Bool := isIPv4 s || isIPv6 s

/-- Models `ping_ip` (esphome_smart_updater.py lines 138-144): `result` is the
exit status of the spawned `ping`, or `none` when the executable is missing
(`FileNotFoundError`), in which case the device is treated as reachable. -/
def ping_ip (result : Option Nat) : Bool :=
  match result with
  | some rc => rc = 0
  | none => true

/-- An atom of the regular-expression fragment exercised by
`matches_pattern`: a literal character or the metacharacter `.`. -/
inductive RAtom where
  | lit (c : Char)
  | dot
deriving DecidableEq

/-- A token: one atom, matched once or under a Kleene star. -/
inductive RTok where
  | once (a : RAtom)
  | star (a : RAtom)
deriving DecidableEq

/-- Parses the converted pattern into tokens. After
`pattern.replace("*", ".*")` the patterns handed to `re.search` consist of
literal characters, `.`, and `*` applied to the preceding single-character
atom; this is the fragment modelled here (other `re` metacharacters are
treated as literals, which no claim exercises except via `.`). -/
def parseRegex : Str → List RTok
  | [] => []
  | c :: '*' :: rest2 =>
    RTok.star (if c = '.' then RAtom.dot else RAtom.lit c) :: parseRegex rest2
  | c :: rest =>
    RTok.once (if c = '.' then RAtom.dot else RAtom.lit c) :: parseRegex rest

/-- Atom matching under `re.IGNORECASE`: both sides are case-folded. -/
def matchAtom (a : RAtom) (c : Char) : Bool :=
  match a with
  | RAtom.dot => true
  | RAtom.lit l => l.toLower = c.toLower

/-- Kleene-star loop: `a*` consumes zero or more characters matching `a`, and
the continuation `k` (matching of the remaining tokens) is tried after each
consumed run. -/
def starLoop (a : RAtom) (k : Str → Bool) : Str → Bool
  | [] => k []
  | c :: cs => k (c :: cs) || (matchAtom a c && starLoop a k cs)

/-- Matching of a token list against a prefix of the text (a successful match
may leave trailing text unconsumed, as `re.search` does). -/
def matchHere : List RTok → Str → Bool
  | [], _ => true
  | RTok.once a :: ts, cs =>
    match cs with
    | [] => false
    | c :: cs2 => matchAtom a c && matchHere ts cs2
  | RTok.star a :: ts, cs => starLoop a (matchHere ts) cs

/-- Models `re.search`: the token list may match starting at any position of
the text. -/
def searchFrom (ts : List RTok) : Str → Bool
  | [] => matchHere ts []
  | c :: cs => matchHere ts (c :: cs) || searchFrom ts cs

/-- Models `pattern.replace("*", ".*")` (esphome_selective_updates line 627). -/
def starToDotStar : Str → Str
  | [] => []
  | c :: r => if c = '*' then '.' :: '*' :: starToDotStar r else c :: starToDotStar r

/-- Models `re.search(regex_pattern, text, re.IGNORECASE)` applied to the
converted pattern. -/
def re_search (pattern text : Str) : Bool :=
  searchFrom (parseRegex pattern) text

/-- Models `matches_pattern` (esphome_selective_updates lines 618-631): an
empty pattern list never matches; empty patterns are skipped; each remaining
pattern is converted with `replace("*", ".*")` and searched case-insensitively
anywhere in the text. -/
def matches_pattern (text : Str) : List Str → Bool
  | [] => false
  | p :: ps =>
    if p = [] then matches_pattern text ps
    else if re_search (starToDotStar p) text then true
    else matches_pattern text ps

/-- Modelled from the spec: glob semantics as §4.3 words them — `*` matches
any run of characters, every other character matches only itself
(case-insensitively), and the pattern may match anywhere in the string. Used
only to compare the code's regex-based matcher against the spec's glob
semantics; not part of the source. The star loop lets `*` absorb any run of
characters before the rest of the pattern is tried. -/
def globStarLoop (k : Str → Bool) : Str → Bool
  | [] => k []
  | c :: cs => k (c :: cs) || globStarLoop k cs

def globMatchHere : Str → Str → Bool
  | [], _ => true
  | '*' :: ps, cs => globStarLoop (globMatchHere ps) cs
  | p :: ps, cs =>
    match cs with
    | [] => false
    | c :: cs2 => (p.toLower = c.toLower) && globMatchHere ps cs2

/-- Modelled from the spec: the glob pattern may match at any position
(substring semantics). -/
def globSearch (pat : Str) : Str → Bool
  | [] => globMatchHere pat []
  | c :: cs => globMatchHere pat (c :: cs) || globSearch pat cs

/-- A discovered device (esphome_smart_updater.py `discover_devices`,
lines 337-339): the name is the yaml file stem, the config the yaml name. -/
structure Device where
  name : Str
  config : Str
deriving DecidableEq

/-- Per-device outcomes of the external world during one pass of the main
loop: the cancellation flag as observed at each defined checkpoint, the
dashboard address (`[]` when absent or blank), the ping result (`none` models
a missing ping executable), whether compile-locate-copy produced a binary,
the build-derived name returned with it (`[]` when none), and whether the
upload succeeded. -/
structure DevEnv where
  stopBefore : Bool
  addr : Str
  pingResult : Option Nat
  compileOk : Bool
  esphomeName : Str
  stopAfterCompile : Bool
  uploadOk : Bool
  stopInDelay : Bool
deriving DecidableEq

/-- Models the guarded appends `if name not in progress[k]: progress[k].append(name)`
(esphome_smart_updater.py lines 395-396, 408-409, 429-430, 433-434). -/
def addIfAbsent (l : List Str) (x : Str) : List Str :=
  if x ∈ l then l else l ++ [x]

def addSkipped (p : Progress) (n : Str) : Progress :=
  { p with skipped := addIfAbsent p.skipped n }

def addFailed (p : Progress) (n : Str) : Progress :=
  { p with failed := addIfAbsent p.failed n }

/-- Models the success branch of the main loop (lines 426-430): the name is
filtered out of `failed` and appended to `done` when not already there. -/
def recordSuccess (p : Progress) (n : Str) : Progress :=
  { p with
    failed := p.failed.filter (fun x => x ≠ n)
    done := addIfAbsent p.done n }

/-- Models the target resolution of the main loop (lines 413-420): a nonempty
dashboard address is used as-is; otherwise the build-derived name with the
`.local` suffix; otherwise the device name with the `.local` suffix. -/
def resolve_target (name addr esphomeName : Str) : Str :=
  if !addr.isEmpty then addr
  else if !esphomeName.isEmpty then esphomeName ++ ".local".toList
  else name ++ ".local".toList

/-- The effect of processing one device in the main loop (lines 375-443):
the updated progress state, whether the compile and upload phases were
invoked, whether a reachability probe was performed, the upload target when
an upload was attempted, and whether the loop breaks after this device. -/
structure StepOut where
  progress : Progress
  compiledCalled : Bool
  uploadCalled : Bool
  probed : Bool
  target : Option Str
  brk : Bool
deriving DecidableEq

/-- Models one iteration of the main loop of `esphome_smart_updater.py`
(lines 375-443), after the top-of-loop cancellation check: a device already
in `done` is skipped with no external call; with offline-skip enabled, a
nonempty IP-literal address is probed and an unreachable device is recorded
in `skipped`; otherwise the compiler is invoked (a cancellation observed
right after it breaks the loop without recording), a missing binary records
`failed`, and otherwise the uploader is invoked and the outcome recorded —
success removes the name from `failed` and adds it to `done`.  Progress is
persisted (with per-set deduplication) after every recorded outcome. -/
def process_device (skipOffline : Bool) (p : Progress) (d : Device) (e : DevEnv) : StepOut :=
  if d.name ∈ p.done then
    ⟨p, false, false, false, none, false⟩
  else if skipOffline && !e.addr.isEmpty && is_ip e.addr && !ping_ip e.pingResult then
    ⟨save_progress (addSkipped p d.name), false, false, true, none, false⟩
  else if e.stopAfterCompile then
    ⟨p, true, false, skipOffline && !e.addr.isEmpty && is_ip e.addr, none, true⟩
  else if !e.compileOk then
    ⟨save_progress (addFailed p d.name), true, false,
      skipOffline && !e.addr.isEmpty && is_ip e.addr, none, false⟩
  else
    ⟨save_progress (if e.uploadOk then recordSuccess p d.name else addFailed p d.name),
      true, true, skipOffline && !e.addr.isEmpty && is_ip e.addr,
      some (resolve_target d.name e.addr e.esphomeName), e.stopInDelay⟩

/-- One line of the run trace: which external phases ran for a device. -/
structure TraceEntry where
  name : Str
  compiledCalled : Bool
  uploadCalled : Bool
  probed : Bool
  target : Option Str
deriving DecidableEq

/-- Models the main loop of `esphome_smart_updater.py` (lines 370-450): the
devices are visited in order, the cancellation flag is checked before each
device (a set flag breaks the loop), and the final `save_progress` of line
445 runs on every exit path.  Returns the persisted progress and the trace
of devices that were actually reached. -/
def run_loop (skipOffline : Bool) : Progress → List (Device × DevEnv) → Progress × List TraceEntry
  | p, [] => (save_progress p, [])
  | p, (d, e) :: rest =>
    if e.stopBefore then (save_progress p, [])
    else
      let out := process_device skipOffline p d e
      let entry : TraceEntry :=
        ⟨d.name, out.compiledCalled, out.uploadCalled, out.probed, out.target⟩
      if out.brk then (save_progress out.progress, [entry])
      else
        let r := run_loop skipOffline out.progress rest
        (r.1, entry :: r.2)

/-- Models `_run` (esphome_smart_updater.py lines 154-162): with the
cancellation flag set it returns the synthetic status 143 without spawning a
child; otherwise it spawns the command (second component `true`) and returns
the child exit status. -/
def run_child (stop : Bool) (childStatus : Nat) : Nat × Bool :=
  if stop then (143, false) else (childStatus, true)

/-- Models the inter-device delay loop (esphome_smart_updater.py lines
438-440): up to `delay` one-second sleeps, the cancellation flag checked
before each; `sched i` is the flag as observed at the i-th check.  Returns
the number of sleeps performed. -/
def delay_loop (sched : Nat → Bool) : Nat → Nat
  | 0 => 0
  | n + 1 => if sched 0 then 0 else 1 + delay_loop (fun i => sched (i + 1)) n

/-- A device record of the selective-updates variant (`get_esphome_devices`):
name, yaml config file name, and the two version strings.  `[]` models both
Python `None` and the empty string, which behave identically under the
truthiness tests of `should_process_device`. -/
structure SelDevice where
  name : Str
  config_file : Str
  current_version : Str
  deployed_version : Str
deriving DecidableEq

/-- The options consulted by `should_process_device`. -/
structure SelOpts where
  device_name_patterns : List Str
  skip_device_name_patterns : List Str
  yaml_name_patterns : List Str
  skip_yaml_name_patterns : List Str
  update_when_no_deployed_version : Bool
  update_when_version_matches : Bool
deriving DecidableEq

/-- Models `should_process_device` (esphome_selective_updates lines 633-684):
devices already in a progress set are excluded first, then the four pattern
filters are applied, then the two version gates. -/
def should_process_device (device : SelDevice) (opts : SelOpts) (progress : Progress) :
    Bool × Str :=
  if device.name ∈ progress.done then
    (false, "already processed (in done list)".toList)
  else if device.name ∈ progress.failed then
    (false, "previously failed (in failed list)".toList)
  else if device.name ∈ progress.skipped then
    (false, "previously skipped (in skipped list)".toList)
  else if !opts.device_name_patterns.isEmpty
      && !matches_pattern device.name opts.device_name_patterns then
    (false, "device name doesn\x27t match include patterns".toList)
  else if matches_pattern device.name opts.skip_device_name_patterns then
    (false, "device name matches exclude pattern".toList)
  else if !opts.yaml_name_patterns.isEmpty
      && !matches_pattern device.config_file opts.yaml_name_patterns then
    (false, "config file doesn\x27t match include patterns".toList)
  else if matches_pattern device.config_file opts.skip_yaml_name_patterns then
    (false, "config file matches exclude pattern".toList)
  else if device.deployed_version.isEmpty && !opts.update_when_no_deployed_version then
    (false, "no deployed version (update_when_no_deployed_version=false)".toList)
  else if !device.current_version.isEmpty && !device.deployed_version.isEmpty
      && device.current_version = device.deployed_version
      && !opts.update_when_version_matches then
    (false, "versions match".toList ++ device.current_version)
  else
    (true, [])


/-! ### Helper lemmas -/

theorem dedupSeen_mem {α : Type} [DecidableEq α] (x : α) :
    ∀ (l seen : List α), x ∈ dedupSeen seen l ↔ x ∈ l ∧ x ∉ seen := by
  intro l
  induction l with
  | nil => intro seen; simp [dedupSeen]
  | cons a t ih =>
    intro seen
    rw [dedupSeen]
    split_ifs with ha
    · rw [ih seen]
      constructor
      · rintro ⟨hx, hs⟩; exact ⟨List.mem_cons_of_mem a hx, hs⟩
      · rintro ⟨hx, hs⟩
        rcases List.mem_cons.1 hx with rfl | hx'
        · exact absurd ha hs
        · exact ⟨hx', hs⟩
    · simp only [List.mem_cons, ih (a :: seen)]
      constructor
      · rintro (rfl | ⟨hx, hs⟩)
        · exact ⟨Or.inl rfl, ha⟩
        · exact ⟨Or.inr hx, fun hmem => hs (Or.inr hmem)⟩
      · rintro ⟨rfl | hx, hs⟩
        · exact Or.inl rfl
        · by_cases hxa : x = a
          · exact Or.inl hxa
          · exact Or.inr ⟨hx, by simp [hxa, hs]⟩

theorem dedupKeepFirst_mem {α : Type} [DecidableEq α] (l : List α) (x : α) :
    x ∈ dedupKeepFirst l ↔ x ∈ l := by
  unfold dedupKeepFirst
  rw [dedupSeen_mem]
  simp

theorem dedupSeen_nodup {α : Type} [DecidableEq α] :
    ∀ (l seen : List α), (dedupSeen seen l).Nodup := by
  intro l
  induction l with
  | nil => intro seen; simp [dedupSeen]
  | cons a t ih =>
    intro seen
    rw [dedupSeen]
    split_ifs with ha
    · exact ih seen
    · refine List.nodup_cons.2 ⟨?_, ih (a :: seen)⟩
      rw [dedupSeen_mem]
      simp

theorem dedupKeepFirst_nodup {α : Type} [DecidableEq α] (l : List α) :
    (dedupKeepFirst l).Nodup := dedupSeen_nodup l []

theorem dedupSeen_sublist {α : Type} [DecidableEq α] :
    ∀ (l seen : List α), (dedupSeen seen l).Sublist l := by
  intro l
  induction l with
  | nil => intro seen; simp [dedupSeen]
  | cons a t ih =>
    intro seen
    rw [dedupSeen]
    split_ifs with ha
    · exact (ih seen).trans (List.sublist_cons_self a t)
    · exact (ih (a :: seen)).cons₂ a

theorem dedupKeepFirst_sublist {α : Type} [DecidableEq α] (l : List α) :
    (dedupKeepFirst l).Sublist l := dedupSeen_sublist l []

theorem dedupKeepFirst_head {α : Type} [DecidableEq α] (l : List α) :
    (dedupKeepFirst l).head? = l.head? := by
  cases l with
  | nil => rfl
  | cons a t => simp [dedupKeepFirst, dedupSeen]

theorem save_progress_mem_done (p : Progress) (x : Str) :
    x ∈ (save_progress p).done ↔ x ∈ p.done := dedupKeepFirst_mem _ _

theorem save_progress_mem_failed (p : Progress) (x : Str) :
    x ∈ (save_progress p).failed ↔ x ∈ p.failed := dedupKeepFirst_mem _ _

theorem save_progress_mem_skipped (p : Progress) (x : Str) :
    x ∈ (save_progress p).skipped ↔ x ∈ p.skipped := dedupKeepFirst_mem _ _

theorem mem_addIfAbsent (l : List Str) (x y : Str) :
    x ∈ addIfAbsent l y ↔ x ∈ l ∨ x = y := by
  unfold addIfAbsent
  split_ifs with h
  · constructor
    · exact Or.inl
    · rintro (hx | rfl)
      · exact hx
      · exact h
  · simp [List.mem_append]

theorem insertByScoreDesc_head_ge (stem c d : Str) (ds : List Str)
    (h : score_candidate stem d ≤ score_candidate stem c) :
    insertByScoreDesc stem c (d :: ds) = c :: d :: ds := by
  simp [insertByScoreDesc, h]

theorem insertByScoreDesc_head_lt (stem c d : Str) (ds : List Str)
    (h : ¬ score_candidate stem d ≤ score_candidate stem c) :
    insertByScoreDesc stem c (d :: ds) = d :: insertByScoreDesc stem c ds := by
  simp [insertByScoreDesc, h]

/-- The selected candidate is the earliest list element of maximal score:
the decomposition exhibits it with only strictly-smaller scores before it. -/
theorem select_candidate_first_max (stem : Str) :
    ∀ cands : List Str, cands ≠ [] →
      ∃ c l₁ l₂, cands = l₁ ++ c :: l₂
        ∧ select_candidate stem cands = some c
        ∧ (∀ d ∈ l₁, score_candidate stem d < score_candidate stem c)
        ∧ (∀ d ∈ cands, score_candidate stem d ≤ score_candidate stem c) := by
  intro cands
  induction cands with
  | nil => intro h; exact absurd rfl h
  | cons c₀ cs ih =>
    intro _
    cases cs with
    | nil =>
      refine ⟨c₀, [], [], rfl, rfl, by simp, ?_⟩
      intro d hd
      simp at hd
      subst hd
      exact le_refl _
    | cons c₁ cs' =>
      obtain ⟨c', l₁, l₂, hdec, hsel, hlt, hle⟩ := ih (by simp)
      unfold select_candidate at hsel ⊢
      rw [sortByScoreDesc]
      cases hsort : sortByScoreDesc stem (c₁ :: cs') with
      | nil => rw [hsort] at hsel; simp at hsel
      | cons x t =>
        rw [hsort] at hsel
        simp only [List.head?] at hsel
        injection hsel with hx
        subst hx
        by_cases hcmp : score_candidate stem x ≤ score_candidate stem c₀
        · rw [insertByScoreDesc_head_ge stem c₀ x t hcmp]
          refine ⟨c₀, [], c₁ :: cs', rfl, rfl, by simp, ?_⟩
          intro d hd
          rcases List.mem_cons.1 hd with rfl | hd'
          · exact le_refl _
          · exact (hle d hd').trans hcmp
        · rw [insertByScoreDesc_head_lt stem c₀ x t hcmp]
          refine ⟨x, c₀ :: l₁, l₂, by rw [hdec]; rfl, rfl, ?_, ?_⟩
          · intro d hd
            rcases List.mem_cons.1 hd with rfl | hd'
            · exact Nat.lt_of_not_le hcmp
            · exact hlt d hd'
          · intro d hd
            rcases List.mem_cons.1 hd with rfl | hd'
            · exact Nat.le_of_lt (Nat.lt_of_not_le hcmp)
            · exact hle d hd'

/-! ### Claim theorems -/

/-- C3: `_score_candidate` gives an exact-prefix match (stem followed by `-`)
the highest score 3, an exact-name match the next score 2, a mere-substring
match the lowest nonzero score 1 and anything else 0; and for a non-empty
candidate list the selected candidate is the first element in the stable
sorted-by-descending-score order — the earliest candidate of maximal score. -/
theorem C3_artifact_scoring (stem : Str) (cands : List Str) (hne : cands ≠ []) :
    (∀ name : Str,
      ((stem ++ ['-']).isPrefixOf name = true → score_candidate stem name = 3)
      ∧ ((stem ++ ['-']).isPrefixOf name = false → name = stem →
          score_candidate stem name = 2)
      ∧ ((stem ++ ['-']).isPrefixOf name = false → name ≠ stem →
          containsSub stem name = true → score_candidate stem name = 1)
      ∧ ((stem ++ ['-']).isPrefixOf name = false → name ≠ stem →
          containsSub stem name = false → score_candidate stem name = 0))
    ∧ (∃ c l₁ l₂, cands = l₁ ++ c :: l₂
        ∧ select_candidate stem cands = some c
        ∧ (∀ d ∈ l₁, score_candidate stem d < score_candidate stem c)
        ∧ (∀ d ∈ cands, score_candidate stem d ≤ score_candidate stem c)) := by
  constructor
  · intro name
    refine ⟨fun h1 => ?_, fun h1 h2 => ?_, fun h1 h2 h3 => ?_, fun h1 h2 h3 => ?_⟩
    · simp [score_candidate, h1]
    · subst h2; simp [score_candidate, h1]
    · simp [score_candidate, h1, h2, h3]
    · simp [score_candidate, h1, h2, h3]
  · exact select_candidate_first_max stem cands hne

/-- Witness for C3 at the spec's own example: stem `ai001` with candidates
`ai001-lounge` (prefix match) and `ai001` (exact match). -/
theorem C3_artifact_scoring_witness :
    (["ai001-lounge".toList, "ai001".toList] : List Str) ≠ []
    ∧ ∃ c l₁ l₂, (["ai001-lounge".toList, "ai001".toList] : List Str) = l₁ ++ c :: l₂
        ∧ select_candidate "ai001".toList ["ai001-lounge".toList, "ai001".toList] = some c
        ∧ (∀ d ∈ l₁, score_candidate "ai001".toList d < score_candidate "ai001".toList c)
        ∧ (∀ d ∈ (["ai001-lounge".toList, "ai001".toList] : List Str),
            score_candidate "ai001".toList d ≤ score_candidate "ai001".toList c) :=
  ⟨by decide,
    (C3_artifact_scoring "ai001".toList ["ai001-lounge".toList, "ai001".toList]
      (by decide)).2⟩

/-- C9 (amended): the smart-updater variant's `save_progress` deduplicates
each of the three sets keeping the first occurrence (the result has no
duplicates, the same members, is a sublist of the input, and keeps the
input's head), while the selective variant's `save_progress` writes the
progress state exactly as it was given. -/
theorem C9_save_dedup (p : Progress) :
    (save_progress p).done.Nodup
    ∧ (save_progress p).failed.Nodup
    ∧ (save_progress p).skipped.Nodup
    ∧ (∀ x, x ∈ (save_progress p).done ↔ x ∈ p.done)
    ∧ (∀ x, x ∈ (save_progress p).failed ↔ x ∈ p.failed)
    ∧ (∀ x, x ∈ (save_progress p).skipped ↔ x ∈ p.skipped)
    ∧ (save_progress p).done.Sublist p.done
    ∧ (save_progress p).failed.Sublist p.failed
    ∧ (save_progress p).skipped.Sublist p.skipped
    ∧ (save_progress p).done.head? = p.done.head?
    ∧ (∀ q : Progress, save_progress_selective q = q) :=
  ⟨dedupKeepFirst_nodup _, dedupKeepFirst_nodup _, dedupKeepFirst_nodup _,
    fun _ => dedupKeepFirst_mem _ _, fun _ => dedupKeepFirst_mem _ _,
    fun _ => dedupKeepFirst_mem _ _,
    dedupKeepFirst_sublist _, dedupKeepFirst_sublist _, dedupKeepFirst_sublist _,
    dedupKeepFirst_head _, fun _ => rfl⟩

/-- C9 counterexample: the selective variant's `save_progress` does not
deduplicate — a state whose `done` list holds the same name twice is written
with the duplicate intact. -/
theorem C9_counterexample :
    (save_progress_selective ⟨["a".toList, "a".toList], [], []⟩).done
        = ["a".toList, "a".toList]
    ∧ ¬ (save_progress_selective ⟨["a".toList, "a".toList], [], []⟩).done.Nodup := by
  decide

/-- C10: the pattern `a.c` — containing the regex metacharacter `.` which
`matches_pattern` leaves unescaped when converting the glob to a regex —
matches the string `abc`, which the spec's glob semantics (every non-`*`
character matches only itself) rejects; both matchers accept the literal
text `a.c` itself. -/
theorem C10_unescaped_metachar :
    matches_pattern "abc".toList ["a.c".toList] = true
    ∧ globSearch "a.c".toList "abc".toList = false
    ∧ matches_pattern "a.c".toList ["a.c".toList] = true
    ∧ globSearch "a.c".toList "a.c".toList = true := by
  decide

theorem starLoop_append (a : RAtom) (k : Str → Bool) (post : Str)
    (hk : ∀ s, k s = true → k (s ++ post) = true) :
    ∀ s, starLoop a k s = true → starLoop a k (s ++ post) = true := by
  intro s
  induction s with
  | nil =>
    intro h
    have hp := hk [] h
    cases post with
    | nil => exact h
    | cons c cs => simp only [List.nil_append] at hp ⊢; simp [starLoop, hp]
  | cons c cs ih =>
    intro h
    rw [starLoop] at h
    rcases Bool.or_eq_true_iff.1 h with h1 | h2
    · have := hk (c :: cs) h1
      simp only [List.cons_append] at this ⊢
      simp [starLoop, this]
    · rcases Bool.and_eq_true_iff.1 h2 with ⟨ha, hs⟩
      simp only [List.cons_append]
      rw [starLoop]
      simp [ha, ih hs]

theorem matchHere_append (post : Str) :
    ∀ (ts : List RTok) (s : Str), matchHere ts s = true → matchHere ts (s ++ post) = true := by
  intro ts
  induction ts with
  | nil => intro s _; rfl
  | cons t ts ih =>
    intro s h
    cases t with
    | once a =>
      cases s with
      | nil => rw [matchHere] at h; exact absurd h (by simp)
      | cons c cs =>
        rw [matchHere] at h
        rcases Bool.and_eq_true_iff.1 h with ⟨ha, hm⟩
        simp only [List.cons_append]
        rw [matchHere]
        simp [ha, ih cs hm]
    | star a =>
      rw [matchHere] at h ⊢
      exact starLoop_append a (matchHere ts) post (fun s2 h2 => ih s2 h2) s h

theorem searchFrom_prepend (ts : List RTok) (pre text : Str)
    (h : searchFrom ts text = true) : searchFrom ts (pre ++ text) = true := by
  induction pre with
  | nil => simpa using h
  | cons c cs ih =>
    simp only [List.cons_append]
    rw [searchFrom]
    simp [ih]

theorem searchFrom_append (ts : List RTok) (post : Str) :
    ∀ text, searchFrom ts text = true → searchFrom ts (text ++ post) = true := by
  intro text
  induction text with
  | nil =>
    intro h
    rw [searchFrom] at h
    simp only [List.nil_append]
    cases post with
    | nil => rw [searchFrom]; exact h
    | cons c cs =>
      rw [searchFrom]
      have hm : matchHere ts (c :: cs) = true := by
        simpa using matchHere_append (c :: cs) ts [] h
      simp [hm]
  | cons c cs ih =>
    intro h
    rw [searchFrom] at h
    simp only [List.cons_append]
    rw [searchFrom]
    rcases Bool.or_eq_true_iff.1 h with h1 | h2
    · have hm : matchHere ts (c :: (cs ++ post)) = true := by
        simpa using matchHere_append post ts (c :: cs) h1
      simp [hm]
    · simp [ih h2]

theorem matches_pattern_extend (pre post text : Str) :
    ∀ ps, matches_pattern text ps = true →
      matches_pattern (pre ++ text ++ post) ps = true := by
  intro ps
  induction ps with
  | nil => intro h; rw [matches_pattern] at h; exact absurd h (by simp)
  | cons p ps ih =>
    intro h
    rw [matches_pattern] at h ⊢
    by_cases hp : p = []
    · simp only [if_pos hp] at h ⊢
      exact ih h
    · simp only [if_neg hp] at h ⊢
      by_cases hs : re_search (starToDotStar p) text = true
      · have h2 : re_search (starToDotStar p) ((pre ++ text) ++ post) = true :=
          searchFrom_append _ post _ (searchFrom_prepend _ pre text hs)
        rw [List.append_assoc] at h2
        simp [h2]
      · rw [if_neg hs] at h
        have h3 := ih h
        by_cases hs2 : re_search (starToDotStar p) (pre ++ text ++ post) = true
        · rw [if_pos hs2]
        · rw [if_neg hs2]
          exact h3

theorem starLoop_dot_matchHere_nil (run : Str) :
    starLoop RAtom.dot (matchHere []) run = true := by
  cases run <;> rfl

theorem matches_ai_star_run (run : Str) :
    matches_pattern ('a' :: 'i' :: run) ["ai*".toList] = true := by
  have hstar := starLoop_dot_matchHere_nil run
  have hsearch : searchFrom (parseRegex (starToDotStar "ai*".toList)) ('a' :: 'i' :: run) = true := by
    rw [show parseRegex (starToDotStar "ai*".toList)
        = [RTok.once (RAtom.lit 'a'), RTok.once (RAtom.lit 'i'), RTok.star RAtom.dot] from rfl]
    rw [searchFrom]
    rw [matchHere]
    have ha : matchAtom (RAtom.lit 'a') 'a' = true := by decide
    have hi : matchAtom (RAtom.lit 'i') 'i' = true := by decide
    rw [ha]
    rw [matchHere]
    rw [hi]
    rw [matchHere]
    simp [hstar]
  rw [matches_pattern]
  rw [if_neg (by decide)]
  rw [show re_search (starToDotStar "ai*".toList) ('a' :: 'i' :: run)
      = searchFrom (parseRegex (starToDotStar "ai*".toList)) ('a' :: 'i' :: run) from rfl]
  rw [hsearch]
  rw [if_pos rfl]

theorem matches_pattern_nil (text : Str) : matches_pattern text [] = false := by
  rw [matches_pattern]

theorem matches_pattern_empty_cons (text : Str) (ps : List Str) :
    matches_pattern text ([] :: ps) = matches_pattern text ps := by
  rw [matches_pattern]
  rw [if_pos rfl]

theorem matches_pattern_all_empty (text : Str) :
    ∀ ps : List Str, (∀ p ∈ ps, p = []) → matches_pattern text ps = false := by
  intro ps
  induction ps with
  | nil => intro _; exact matches_pattern_nil text
  | cons p ps ih =>
    intro h
    have hp : p = [] := h p (List.mem_cons_self p ps)
    subst hp
    rw [matches_pattern_empty_cons]
    exact ih (fun q hq => h q (List.mem_cons_of_mem _ hq))

/-- C5: the pattern matcher expands `*` to `.*` and searches
case-insensitively and unanchored: `ai*` matches `ai001-lounge` (and `ai`
followed by any run of characters, anywhere in the string, in any case) and
does not match `as007-shop`; an empty pattern list never matches, an empty
pattern is ignored, and a list of only empty patterns never matches. -/
theorem C5_pattern_matching :
    matches_pattern "ai001-lounge".toList ["ai*".toList] = true
    ∧ matches_pattern "as007-shop".toList ["ai*".toList] = false
    ∧ (∀ run : Str, matches_pattern ('a' :: 'i' :: run) ["ai*".toList] = true)
    ∧ (∀ pre post text : Str, ∀ ps : List Str,
        matches_pattern text ps = true → matches_pattern (pre ++ text ++ post) ps = true)
    ∧ matches_pattern "AI001-LOUNGE".toList ["ai*".toList] = true
    ∧ matches_pattern "ai001-lounge".toList ["AI*".toList] = true
    ∧ (∀ text : Str, matches_pattern text [] = false)
    ∧ (∀ text : Str, ∀ ps : List Str, matches_pattern text ([] :: ps) = matches_pattern text ps)
    ∧ (∀ text : Str, ∀ ps : List Str, (∀ p ∈ ps, p = []) → matches_pattern text ps = false) :=
  ⟨by decide, by decide, matches_ai_star_run,
    fun pre post text ps h => matches_pattern_extend pre post text ps h,
    by decide, by decide, matches_pattern_nil,
    fun text ps => matches_pattern_empty_cons text ps,
    fun text ps h => matches_pattern_all_empty text ps h⟩

/-- Witness for C5: the unanchored-match conjunct applied at a concrete
device name embedded in surrounding text. -/
theorem C5_pattern_matching_witness :
    matches_pattern "ai001".toList ["ai*".toList] = true
    ∧ matches_pattern ("xx".toList ++ "ai001".toList ++ "yy".toList) ["ai*".toList] = true :=
  ⟨by decide,
    C5_pattern_matching.2.2.2.1 "xx".toList "yy".toList "ai001".toList ["ai*".toList]
      (by decide)⟩

/-- C2: when a device whose name is recorded in `failed` is processed and its
upload succeeds, the recorded outcome removes the name from `failed` and adds
it to `done` (main loop lines 422-436). -/
theorem C2_retry_clears_failure (skipOffline : Bool) (p : Progress) (d : Device) (e : DevEnv)
    (hfail : d.name ∈ p.failed)
    (hproc : (process_device skipOffline p d e).uploadCalled = true)
    (hok : e.uploadOk = true) :
    d.name ∉ (process_device skipOffline p d e).progress.failed
    ∧ d.name ∈ (process_device skipOffline p d e).progress.done := by
  unfold process_device at hproc ⊢
  split_ifs at hproc ⊢ with h1 h2 h3 h4
  all_goals simp_all
  constructor
  · intro hmem
    rw [save_progress_mem_failed] at hmem
    simp [recordSuccess, List.mem_filter] at hmem
  · rw [save_progress_mem_done]
    simp [recordSuccess, mem_addIfAbsent]

/-- The three cases of the upload-target resolution (main loop lines
413-420): a nonempty declared address is used exactly as given — whether or
not it is an IP literal — and the `.local` suffix is appended only to the
build-derived name or, failing that, the device's own name. -/
theorem resolve_target_cases (name addr ehname : Str) :
    (addr ≠ [] → resolve_target name addr ehname = addr)
    ∧ (addr = [] → ehname ≠ [] →
        resolve_target name addr ehname = ehname ++ ".local".toList)
    ∧ (addr = [] → ehname = [] →
        resolve_target name addr ehname = name ++ ".local".toList) := by
  refine ⟨fun ha => ?_, fun ha he => ?_, fun ha he => ?_⟩
  · cases haddr : addr with
    | nil => exact absurd haddr ha
    | cons c cs => subst haddr; simp [resolve_target]
  · subst ha
    cases hn : ehname with
    | nil => exact absurd hn he
    | cons c cs => subst hn; simp [resolve_target]
  · subst ha; subst he; simp [resolve_target]

/-- C4 (amended): for a device that reaches the upload phase, the target is
the declared address used as-is whenever one is present (IP literal or not);
with no declared address it is the build-derived name with the `.local`
suffix; with neither it is the device's own name with the `.local` suffix. -/
theorem C4_target_priority (skipOffline : Bool) (p : Progress) (d : Device) (e : DevEnv)
    (hup : (process_device skipOffline p d e).uploadCalled = true) :
    (e.addr ≠ [] → (process_device skipOffline p d e).target = some e.addr)
    ∧ (e.addr = [] → e.esphomeName ≠ [] →
        (process_device skipOffline p d e).target = some (e.esphomeName ++ ".local".toList))
    ∧ (e.addr = [] → e.esphomeName = [] →
        (process_device skipOffline p d e).target = some (d.name ++ ".local".toList)) := by
  have hr := resolve_target_cases d.name e.addr e.esphomeName
  unfold process_device at hup ⊢
  split_ifs at hup ⊢ with h1 h2 h3 h4 <;>
    exact ⟨fun ha => by simp [hr.1 ha], fun ha he => by simp [hr.2.1 ha he],
      fun ha he => by simp [hr.2.2 ha he]⟩

/-- C7: a reachability probe happens only when offline-skip is enabled and
the declared address is a nonempty IP literal; a non-IP target is never
probed and (unless the device is already done) the run proceeds to the
compile/upload phase; and a missing ping executable makes `ping_ip` report
reachable, so the update is not blocked. -/
theorem C7_offline_probe (skipOffline : Bool) (p : Progress) (d : Device) (e : DevEnv) :
    ((process_device skipOffline p d e).probed = true →
        skipOffline = true ∧ e.addr ≠ [] ∧ is_ip e.addr = true)
    ∧ (is_ip e.addr = false → (process_device skipOffline p d e).probed = false)
    ∧ (is_ip e.addr = false → d.name ∉ p.done →
        (process_device skipOffline p d e).compiledCalled = true)
    ∧ (e.pingResult = none → ping_ip e.pingResult = true)
    ∧ (e.pingResult = none → d.name ∉ p.done →
        (process_device skipOffline p d e).compiledCalled = true) := by
  unfold process_device
  split_ifs with h1 h2 h3 h4
  all_goals
    refine ⟨fun hp => ?_, fun hip => ?_, fun hip hd => ?_, fun hping => ?_, fun hping hd => ?_⟩ <;>
      simp_all [ping_ip]

/-- Witness for C2: a device in `failed` retried successfully ends up in
`done` and out of `failed`. -/
theorem C2_retry_clears_failure_witness :
    ("dev1".toList ∈ (⟨[], ["dev1".toList], []⟩ : Progress).failed)
    ∧ ((process_device true ⟨[], ["dev1".toList], []⟩ ⟨"dev1".toList, "dev1.yaml".toList⟩
          ⟨false, [], some 0, true, "eh".toList, false, true, false⟩).uploadCalled = true)
    ∧ ((⟨false, [], some 0, true, "eh".toList, false, true, false⟩ : DevEnv).uploadOk = true)
    ∧ ("dev1".toList ∉ (process_device true ⟨[], ["dev1".toList], []⟩
          ⟨"dev1".toList, "dev1.yaml".toList⟩
          ⟨false, [], some 0, true, "eh".toList, false, true, false⟩).progress.failed
        ∧ "dev1".toList ∈ (process_device true ⟨[], ["dev1".toList], []⟩
          ⟨"dev1".toList, "dev1.yaml".toList⟩
          ⟨false, [], some 0, true, "eh".toList, false, true, false⟩).progress.done) :=
  ⟨by decide, by decide, by decide,
    C2_retry_clears_failure true ⟨[], ["dev1".toList], []⟩
      ⟨"dev1".toList, "dev1.yaml".toList⟩
      ⟨false, [], some 0, true, "eh".toList, false, true, false⟩
      (by decide) (by decide) (by decide)⟩

/-- Witness for C4: with a declared (non-IP) address present, the target is
that address unchanged. -/
theorem C4_target_priority_witness :
    ((process_device true ⟨[], [], []⟩ ⟨"dev1".toList, "dev1.yaml".toList⟩
        ⟨false, "myhost".toList, some 0, true, "eh".toList, false, true, false⟩).uploadCalled
      = true)
    ∧ ("myhost".toList : Str) ≠ []
    ∧ (process_device true ⟨[], [], []⟩ ⟨"dev1".toList, "dev1.yaml".toList⟩
        ⟨false, "myhost".toList, some 0, true, "eh".toList, false, true, false⟩).target
      = some "myhost".toList :=
  ⟨by decide, by decide,
    (C4_target_priority true ⟨[], [], []⟩ ⟨"dev1".toList, "dev1.yaml".toList⟩
      ⟨false, "myhost".toList, some 0, true, "eh".toList, false, true, false⟩
      (by decide)).1 (by decide)⟩

/-- C4 counterexample: a declared bare-hostname (non-IP) address is used
exactly as-is as the upload target — the `.local` suffix the claim requires
is not appended. -/
theorem C4_counterexample :
    (process_device true ⟨[], [], []⟩ ⟨"dev1".toList, "dev1.yaml".toList⟩
        ⟨false, "myhost".toList, some 0, true, "ehname".toList, false, true, false⟩).target
      = some "myhost".toList
    ∧ is_ip "myhost".toList = false
    ∧ "myhost".toList ≠ "myhost".toList ++ ".local".toList := by decide

/-- Witness for C7: a non-IP declared address is not probed and the device
proceeds to the compile phase. -/
theorem C7_offline_probe_witness :
    (is_ip "myhost".toList = false)
    ∧ (process_device true ⟨[], [], []⟩ ⟨"dev1".toList, "dev1.yaml".toList⟩
        ⟨false, "myhost".toList, some 1, true, "eh".toList, false, true, false⟩).probed
      = false :=
  ⟨by decide,
    (C7_offline_probe true ⟨[], [], []⟩ ⟨"dev1".toList, "dev1.yaml".toList⟩
      ⟨false, "myhost".toList, some 1, true, "eh".toList, false, true, false⟩).2.1
      (by decide)⟩

/-- One device step preserves disjointness of `done` and `failed`: a success
removes the name from `failed` before adding it to `done`, and a failure is
recorded only for a device that was not in `done`. -/
theorem process_device_done_failed_disjoint (skipOffline : Bool) (p : Progress) (d : Device)
    (e : DevEnv) (hdisj : ∀ x, x ∈ p.done → x ∉ p.failed) :
    ∀ x, x ∈ (process_device skipOffline p d e).progress.done →
      x ∉ (process_device skipOffline p d e).progress.failed := by
  intro x hx hxf
  unfold process_device at hx hxf
  split_ifs at hx hxf with h1 h2 h3 h4
  · exact hdisj x hx hxf
  · simp only [save_progress_mem_done, save_progress_mem_failed, addSkipped] at hx hxf
    exact hdisj x hx hxf
  · exact hdisj x hx hxf
  · simp only [save_progress_mem_done, save_progress_mem_failed, addFailed,
      mem_addIfAbsent] at hx hxf
    rcases hxf with hxf | rfl
    · exact hdisj x hx hxf
    · exact h1 hx
  case _ hok =>
    simp only [save_progress_mem_done, save_progress_mem_failed, recordSuccess,
      mem_addIfAbsent, List.mem_filter] at hx hxf
    rcases hxf with ⟨hxf, hne⟩
    rcases hx with hx | rfl
    · exact hdisj x hx hxf
    · simp at hne
  case _ hok =>
    simp only [save_progress_mem_done, save_progress_mem_failed, addFailed,
      mem_addIfAbsent] at hx hxf
    rcases hxf with hxf | rfl
    · exact hdisj x hx hxf
    · exact h1 hx

theorem run_loop_done_failed_disjoint (skipOffline : Bool) :
    ∀ (devs : List (Device × DevEnv)) (p : Progress),
      (∀ x, x ∈ p.done → x ∉ p.failed) →
      ∀ x, x ∈ (run_loop skipOffline p devs).1.done →
        x ∉ (run_loop skipOffline p devs).1.failed := by
  intro devs
  induction devs with
  | nil =>
    intro p hdisj x hx hxf
    rw [run_loop] at hx hxf
    simp only [save_progress_mem_done, save_progress_mem_failed] at hx hxf
    exact hdisj x hx hxf
  | cons de rest ih =>
    intro p hdisj x hx hxf
    obtain ⟨d, e⟩ := de
    rw [run_loop] at hx hxf
    by_cases hstop : e.stopBefore = true
    · rw [if_pos hstop] at hx hxf
      simp only [save_progress_mem_done, save_progress_mem_failed] at hx hxf
      exact hdisj x hx hxf
    · rw [if_neg hstop] at hx hxf
      by_cases hbrk : (process_device skipOffline p d e).brk = true
      · simp only [if_pos hbrk] at hx hxf
        simp only [save_progress_mem_done, save_progress_mem_failed] at hx hxf
        exact process_device_done_failed_disjoint skipOffline p d e hdisj x hx hxf
      · simp only [if_neg hbrk] at hx hxf
        exact ih (process_device skipOffline p d e).progress
          (process_device_done_failed_disjoint skipOffline p d e hdisj) x hx hxf

/-- A name already in `done` is untouched by one device step: it stays in
`done`, its other memberships do not change, and a device bearing that name
performs no compile or upload call. -/
theorem process_device_done_untouched (skipOffline : Bool) (p : Progress) (d : Device)
    (e : DevEnv) (n : Str) (hn : n ∈ p.done) :
    n ∈ (process_device skipOffline p d e).progress.done
    ∧ (n ∈ (process_device skipOffline p d e).progress.failed ↔ n ∈ p.failed)
    ∧ (n ∈ (process_device skipOffline p d e).progress.skipped ↔ n ∈ p.skipped)
    ∧ (d.name = n → (process_device skipOffline p d e).compiledCalled = false
        ∧ (process_device skipOffline p d e).uploadCalled = false) := by
  unfold process_device
  split_ifs with h1 h2 h3 h4
  · exact ⟨hn, Iff.rfl, Iff.rfl, fun _ => ⟨rfl, rfl⟩⟩
  · have hne : d.name ≠ n := fun h => h1 (h ▸ hn)
    refine ⟨?_, ?_, ?_, fun h => absurd h hne⟩
    · simpa [save_progress_mem_done, addSkipped] using hn
    · simp [save_progress_mem_failed, addSkipped]
    · simp only [save_progress_mem_skipped, addSkipped, mem_addIfAbsent]
      constructor
      · rintro (hs | rfl)
        · exact hs
        · exact absurd rfl hne
      · exact Or.inl
  · have hne : d.name ≠ n := fun h => h1 (h ▸ hn)
    exact ⟨hn, Iff.rfl, Iff.rfl, fun h => absurd h hne⟩
  · have hne : d.name ≠ n := fun h => h1 (h ▸ hn)
    refine ⟨?_, ?_, ?_, fun h => absurd h hne⟩
    · simpa [save_progress_mem_done, addFailed] using hn
    · simp only [save_progress_mem_failed, addFailed, mem_addIfAbsent]
      constructor
      · rintro (hs | rfl)
        · exact hs
        · exact absurd rfl hne
      · exact Or.inl
    · simp [save_progress_mem_skipped, addFailed]
  case _ hok =>
    have hne : d.name ≠ n := fun h => h1 (h ▸ hn)
    refine ⟨?_, ?_, ?_, fun h => absurd h hne⟩
    · simp only [save_progress_mem_done, recordSuccess, mem_addIfAbsent]
      exact Or.inl hn
    · simp only [save_progress_mem_failed, recordSuccess, List.mem_filter]
      constructor
      · rintro ⟨hs, _⟩; exact hs
      · intro hs; exact ⟨hs, by simp [Ne.symm hne]⟩
    · simp [save_progress_mem_skipped, recordSuccess]
  case _ hok =>
    have hne : d.name ≠ n := fun h => h1 (h ▸ hn)
    refine ⟨?_, ?_, ?_, fun h => absurd h hne⟩
    · simpa [save_progress_mem_done, addFailed] using hn
    · simp only [save_progress_mem_failed, addFailed, mem_addIfAbsent]
      constructor
      · rintro (hs | rfl)
        · exact hs
        · exact absurd rfl hne
      · exact Or.inl
    · simp [save_progress_mem_skipped, addFailed]

theorem run_loop_done_untouched (skipOffline : Bool) :
    ∀ (devs : List (Device × DevEnv)) (p : Progress) (n : Str), n ∈ p.done →
      n ∈ (run_loop skipOffline p devs).1.done
      ∧ (n ∈ (run_loop skipOffline p devs).1.failed ↔ n ∈ p.failed)
      ∧ (n ∈ (run_loop skipOffline p devs).1.skipped ↔ n ∈ p.skipped)
      ∧ (∀ t ∈ (run_loop skipOffline p devs).2, t.name = n →
          t.compiledCalled = false ∧ t.uploadCalled = false) := by
  intro devs
  induction devs with
  | nil =>
    intro p n hn
    rw [run_loop]
    refine ⟨?_, ?_, ?_, ?_⟩
    · simpa [save_progress_mem_done] using hn
    · simp [save_progress_mem_failed]
    · simp [save_progress_mem_skipped]
    · intro t ht; simp at ht
  | cons de rest ih =>
    intro p n hn
    obtain ⟨d, e⟩ := de
    rw [run_loop]
    by_cases hstop : e.stopBefore = true
    · rw [if_pos hstop]
      refine ⟨?_, ?_, ?_, ?_⟩
      · simpa [save_progress_mem_done] using hn
      · simp [save_progress_mem_failed]
      · simp [save_progress_mem_skipped]
      · intro t ht; simp at ht
    · rw [if_neg hstop]
      obtain ⟨hdone, hfailiff, hskipiff, htr⟩ :=
        process_device_done_untouched skipOffline p d e n hn
      by_cases hbrk : (process_device skipOffline p d e).brk = true
      · simp only [if_pos hbrk]
        refine ⟨?_, ?_, ?_, ?_⟩
        · simpa [save_progress_mem_done] using hdone
        · simpa [save_progress_mem_failed] using hfailiff
        · simpa [save_progress_mem_skipped] using hskipiff
        · intro t ht hname
          simp only [List.mem_singleton] at ht
          subst ht
          exact htr hname
      · simp only [if_neg hbrk]
        obtain ⟨ih1, ih2, ih3, ih4⟩ :=
          ih (process_device skipOffline p d e).progress n hdone
        refine ⟨ih1, ih2.trans hfailiff, ih3.trans hskipiff, ?_⟩
        intro t ht hname
        simp only [List.mem_cons] at ht
        rcases ht with rfl | ht'
        · exact htr hname
        · exact ih4 t ht' hname

theorem delay_loop_le :
    ∀ (n : Nat) (sched : Nat → Bool),
      (∀ i j, i ≤ j → sched i = true → sched j = true) →
      ∀ k, sched k = true → delay_loop sched n ≤ k := by
  intro n
  induction n with
  | zero => intro sched _ k _; exact Nat.zero_le k
  | succ m ih =>
    intro sched hmono k hk
    rw [delay_loop]
    by_cases h0 : sched 0 = true
    · rw [if_pos h0]; exact Nat.zero_le k
    · rw [if_neg h0]
      cases k with
      | zero => exact absurd hk h0
      | succ k2 =>
        have hrec := ih (fun i => sched (i + 1))
          (fun i j hij hi => hmono (i + 1) (j + 1) (Nat.succ_le_succ hij) hi) k2 hk
        omega

theorem run_loop_stop_trace (skipOffline : Bool) :
    ∀ (pre : List (Device × DevEnv)) (p : Progress) (d : Device) (e : DevEnv)
      (rest : List (Device × DevEnv)),
      e.stopBefore = true →
      ((run_loop skipOffline p (pre ++ (d, e) :: rest)).2).length ≤ pre.length := by
  intro pre
  induction pre with
  | nil =>
    intro p d e rest hstop
    rw [List.nil_append, run_loop, if_pos hstop]
    simp
  | cons de0 pre2 ih =>
    intro p d e rest hstop
    obtain ⟨d0, e0⟩ := de0
    rw [List.cons_append, run_loop]
    by_cases h0 : e0.stopBefore = true
    · rw [if_pos h0]; simp
    · rw [if_neg h0]
      by_cases hbrk : (process_device skipOffline p d0 e0).brk = true
      · simp only [if_pos hbrk]
        simp
      · simp only [if_neg hbrk, List.length_cons]
        have := ih (process_device skipOffline p d0 e0).progress d e rest hstop
        simpa using Nat.succ_le_succ this

/-- C1 counterexample: a device recorded in `skipped` by an earlier run that
is processed again and succeeds ends up in both `skipped` and `done` — the
success path cleans `failed` but never `skipped`. -/
theorem C1_counterexample :
    ("dev1".toList ∈ (run_loop true ⟨[], [], ["dev1".toList]⟩
      [(⟨"dev1".toList, "dev1.yaml".toList⟩,
        ⟨false, [], some 0, true, "dev1".toList, false, true, false⟩)]).1.done)
    ∧ ("dev1".toList ∈ (run_loop true ⟨[], [], ["dev1".toList]⟩
      [(⟨"dev1".toList, "dev1.yaml".toList⟩,
        ⟨false, [], some 0, true, "dev1".toList, false, true, false⟩)]).1.skipped) := by
  decide

/-- C1 (amended): after any run whose starting state has `done` and `failed`
disjoint, no device name appears in both `done` and `failed`; `skipped` is
not cleaned on later success or failure, so a previously-skipped device may
additionally appear in `done` or `failed`. -/
theorem C1_done_failed_exclusive (skipOffline : Bool) (p : Progress)
    (devs : List (Device × DevEnv))
    (hdisj : ∀ x, x ∈ p.done → x ∉ p.failed) :
    ∀ x, x ∈ (run_loop skipOffline p devs).1.done →
      x ∉ (run_loop skipOffline p devs).1.failed :=
  run_loop_done_failed_disjoint skipOffline devs p hdisj

/-- Witness for C1: a run over one device from the empty progress state. -/
theorem C1_done_failed_exclusive_witness :
    (∀ x : Str, x ∈ (⟨[], [], []⟩ : Progress).done → x ∉ (⟨[], [], []⟩ : Progress).failed)
    ∧ ∀ x : Str, x ∈ (run_loop true ⟨[], [], []⟩
        [(⟨"dev1".toList, "dev1.yaml".toList⟩,
          ⟨false, [], some 0, true, "dev1".toList, false, true, false⟩)]).1.done →
      x ∉ (run_loop true ⟨[], [], []⟩
        [(⟨"dev1".toList, "dev1.yaml".toList⟩,
          ⟨false, [], some 0, true, "dev1".toList, false, true, false⟩)]).1.failed :=
  ⟨by simp, C1_done_failed_exclusive true ⟨[], [], []⟩
    [(⟨"dev1".toList, "dev1.yaml".toList⟩,
      ⟨false, [], some 0, true, "dev1".toList, false, true, false⟩)] (by simp)⟩

/-- C6: a device whose name is in the starting `done` set triggers no compile
and no upload call during the run (its trace entries are inert), remains in
`done`, and its `failed`/`skipped` memberships are unchanged; the selective
variant's filter likewise rejects it. -/
theorem C6_idempotent_resume (skipOffline : Bool) (p : Progress)
    (devs : List (Device × DevEnv)) (n : Str) (hn : n ∈ p.done) :
    (∀ t ∈ (run_loop skipOffline p devs).2, t.name = n →
        t.compiledCalled = false ∧ t.uploadCalled = false)
    ∧ n ∈ (run_loop skipOffline p devs).1.done
    ∧ (n ∈ (run_loop skipOffline p devs).1.failed ↔ n ∈ p.failed)
    ∧ (n ∈ (run_loop skipOffline p devs).1.skipped ↔ n ∈ p.skipped)
    ∧ (∀ (dv : SelDevice) (opts : SelOpts), dv.name = n →
        (should_process_device dv opts p).1 = false) := by
  obtain ⟨h1, h2, h3, h4⟩ := run_loop_done_untouched skipOffline devs p n hn
  refine ⟨h4, h1, h2, h3, ?_⟩
  intro dv opts hdv
  unfold should_process_device
  rw [if_pos (hdv ▸ hn)]

/-- Witness for C6: a one-device run where the device is already done. -/
theorem C6_idempotent_resume_witness :
    ("dev1".toList ∈ (⟨["dev1".toList], [], []⟩ : Progress).done)
    ∧ (∀ t ∈ (run_loop true ⟨["dev1".toList], [], []⟩
          [(⟨"dev1".toList, "dev1.yaml".toList⟩,
            ⟨false, [], some 0, true, "dev1".toList, false, true, false⟩)]).2,
        t.name = "dev1".toList → t.compiledCalled = false ∧ t.uploadCalled = false) :=
  ⟨by decide,
    (C6_idempotent_resume true ⟨["dev1".toList], [], []⟩
      [(⟨"dev1".toList, "dev1.yaml".toList⟩,
        ⟨false, [], some 0, true, "dev1".toList, false, true, false⟩)]
      "dev1".toList (by decide)).1⟩

/-- C8: with the cancellation flag set, the command runner returns the
synthetic failure status 143 without spawning; once the flag is set the delay
loop performs no sleep beyond the checks that saw it unset (at most `k`
sleeps when the flag is set by check `k`); and a set flag at the checkpoint
before a device prevents that device and all later ones from being reached. -/
theorem C8_cancellation :
    (∀ rc : Nat, run_child true rc = (143, false))
    ∧ (∀ (sched : Nat → Bool) (n k : Nat),
        (∀ i j, i ≤ j → sched i = true → sched j = true) →
        sched k = true → delay_loop sched n ≤ k)
    ∧ (∀ (skipOffline : Bool) (p : Progress) (pre : List (Device × DevEnv))
        (d : Device) (e : DevEnv) (rest : List (Device × DevEnv)),
        e.stopBefore = true →
        ((run_loop skipOffline p (pre ++ (d, e) :: rest)).2).length ≤ pre.length) :=
  ⟨fun _ => rfl,
    fun sched n k hmono hk => delay_loop_le n sched hmono k hk,
    fun skipOffline p pre d e rest hstop =>
      run_loop_stop_trace skipOffline pre p d e rest hstop⟩

/-- Witness for C8: each conjunct applied at a concrete instance. -/
theorem C8_cancellation_witness :
    run_child true 7 = (143, false)
    ∧ delay_loop (fun _ => true) 5 ≤ 0
    ∧ ((run_loop true ⟨[], [], []⟩
        ([] ++ (⟨"dev1".toList, "d.yaml".toList⟩,
          (⟨true, [], some 0, true, [], false, true, false⟩ : DevEnv)) :: [])).2).length
      ≤ ([] : List (Device × DevEnv)).length :=
  ⟨C8_cancellation.1 7,
    C8_cancellation.2.1 (fun _ => true) 5 0 (fun _ _ _ h => h) rfl,
    C8_cancellation.2.2 true ⟨[], [], []⟩ []
      ⟨"dev1".toList, "d.yaml".toList⟩
      ⟨true, [], some 0, true, [], false, true, false⟩ [] rfl⟩

end EsphomeUpdater
